import Mathlib

/-!
Circle 8 client runtime: login throttle and weekly quiz.

A shallow embedding of `assets/js/login.js`, `assets/js/storage.js` and
`assets/js/week.js`, followed by the properties proved about it.

Conventions of the embedding

* JavaScript arrays are Lean lists; an index read that would give `undefined`
  is an `Option`.
* `Date.now()` readings are natural numbers (milliseconds since the epoch) and
  are inputs of the event that reads them, one field per call site.
* `Math.random()` outcomes are inputs: exact fractions in `[0, 1)`.
* JavaScript numbers that can be `NaN` are values of `JSNum`; finite values are
  exact rationals (IEEE rounding is not modelled).
* `localStorage` is a total map from key strings to optional string values; the
  JSON entries written by `storage.js` are kept as the values they parse to.
* One run of the submit handler is one step: the `await` on the digest is not
  treated as a point where another handler run can interleave.
-/

namespace Circle8

/-! ## week.js: question bank and sampling -/

/-- One question of a bank: `{ "q": ..., "c": [...], "a": ... }`. -/
structure Question where
  q : String
  c : List String
  a : Int
  deriving DecidableEq, Repr

/-- The object `{ ...qs[i], i }` built by `pickRandomTen`: the own fields of
`qs[i]` (none when `qs[i]` is `undefined`) together with the index `i`. -/
structure Entry where
  fields : Option Question
  i : Nat
  deriving DecidableEq, Repr

/-- One outcome of `Math.random()`: the fraction `num / den`, in `[0, 1)`. -/
structure Rand where
  num : Nat
  den : Nat
  lt_one : num < den

/-- The value `Math.floor(Math.random() * k)` for the outcome `r`. -/
def Rand.floorMul (r : Rand) (k : Nat) : Nat :=
  r.num * k / r.den

/-- The destructuring swap `[idx[i], idx[j]] = [idx[j], idx[i]]`: both reads
happen first, then `idx[i]` and `idx[j]` are written in that order. -/
def swapAt (idx : List Nat) (i j : Nat) : List Nat :=
  let oldJ := idx.getD j 0
  let oldI := idx.getD i 0
  (idx.set i oldJ).set j oldI

/-- The loop `for (let i = idx.length-1; i > 0; i--) { j = floor(random()*(i+1)); swap }`.
The first argument is the loop variable `i`, the second counts the calls of
`Math.random()` made so far. -/
def shuffleLoop (rnd : Nat → Rand) : Nat → Nat → List Nat → List Nat
  | 0, _, idx => idx
  | i + 1, k, idx =>
    let j := (rnd k).floorMul (i + 1 + 1)
    shuffleLoop rnd i (k + 1) (swapAt idx (i + 1) j)

/-- Source function `pickRandomTen(qs)`; `rnd k` is the outcome of the `k`-th call
of `Math.random()`. -/
def pickRandomTen (qs : List Question) (rnd : Nat → Rand) : List Entry :=
  let idx := List.range qs.length
  let idx := shuffleLoop rnd (idx.length - 1) 0 idx
  (idx.take 10).map (fun i => { fields := qs[i]?, i := i })


/-- The guard and assignment of `newSet()` inside the page initialiser: with
fewer than 10 questions the current set is kept, otherwise it is replaced by a
fresh sample. -/
def newSet (all : List Question) (rnd : Nat → Rand) (currentSet : List Entry) : List Entry :=
  if all.length < 10 then currentSet else pickRandomTen all rnd

/-! ## JavaScript numbers and `Number(string)` -/

/-- A JavaScript number: `NaN`, the two infinities, or a finite value. -/
inductive JSNum where
  | nan
  | negInf
  | fin (q : ℚ)
  | posInf
  deriving DecidableEq

/-- Unary minus. -/
def JSNum.neg : JSNum → JSNum
  | .nan => .nan
  | .negInf => .posInf
  | .fin q => .fin (-q)
  | .posInf => .negInf

/-- The builtin `Math.min(a, b)`: `NaN` if either argument is `NaN`. -/
def mathMin : JSNum → JSNum → JSNum
  | .nan, _ => .nan
  | _, .nan => .nan
  | .negInf, _ => .negInf
  | _, .negInf => .negInf
  | .posInf, b => b
  | a, .posInf => a
  | .fin x, .fin y => .fin (min x y)

/-- The builtin `Math.max(a, b)`: `NaN` if either argument is `NaN`. -/
def mathMax : JSNum → JSNum → JSNum
  | .nan, _ => .nan
  | _, .nan => .nan
  | .posInf, _ => .posInf
  | _, .posInf => .posInf
  | .negInf, b => b
  | a, .negInf => a
  | .fin x, .fin y => .fin (max x y)

/-- The comparison `a > b` on numbers: false as soon as one side is `NaN`. -/
def JSNum.gt : JSNum → JSNum → Bool
  | .nan, _ => false
  | _, .nan => false
  | .negInf, _ => false
  | _, .posInf => false
  | .posInf, _ => true
  | .fin _, .negInf => true
  | .fin x, .fin y => decide (y < x)

/-- The builtin `Math.round(x)` on a finite value: `floor(x + 1/2)`. -/
def mathRound (x : ℚ) : Int :=
  Int.floor (x + 1 / 2)

/-- White space and line terminators of ECMAScript, the characters removed by
`String.prototype.trim` and skipped around a numeric string. -/
def isStrWhiteSpaceChar (c : Char) : Bool :=
  let n := c.toNat
  n == 0x9 || n == 0xA || n == 0xB || n == 0xC || n == 0xD || n == 0x20 || n == 0xA0 ||
  n == 0x1680 || (0x2000 ≤ n && n ≤ 0x200A) || n == 0x2028 || n == 0x2029 || n == 0x202F ||
  n == 0x205F || n == 0x3000 || n == 0xFEFF

/-- Removal of leading and trailing white space from a character list. -/
def trimChars (cs : List Char) : List Char :=
  ((cs.dropWhile isStrWhiteSpaceChar).reverse.dropWhile isStrWhiteSpaceChar).reverse

/-- The builtin `s.trim()`. -/
def jsTrim (s : String) : String :=
  String.mk (trimChars s.data)

/-- Value of one digit character in a radix up to 16. -/
def radixDigit (c : Char) : Nat :=
  if c.isDigit then c.toNat - 48
  else if 'a'.toNat ≤ c.toNat ∧ c.toNat ≤ 'f'.toNat then c.toNat - 87
  else c.toNat - 55

/-- Whether `c` is a digit of the given radix. -/
def isRadixDigit (base : Nat) (c : Char) : Bool :=
  (c.isDigit || ('a'.toNat ≤ c.toNat && c.toNat ≤ 'f'.toNat) ||
    ('A'.toNat ≤ c.toNat && c.toNat ≤ 'F'.toNat)) && radixDigit c < base

/-- Mathematical value of a digit string, most significant digit first. -/
def digitsValue (base : Nat) (cs : List Char) : Nat :=
  cs.foldl (fun n c => base * n + radixDigit c) 0

/-- A non-decimal integer literal body (after `0x`, `0o` or `0b`). -/
def parseRadix (base : Nat) (ds : List Char) : JSNum :=
  if ds ≠ [] ∧ ds.all (isRadixDigit base) = true then .fin (digitsValue base ds) else .nan

/-- The signed integer after `e` or `E`. -/
def parseExponent (cs : List Char) : Option Int :=
  let neg := match cs with
    | '-' :: _ => true
    | _ => false
  let ds := match cs with
    | '+' :: t => t
    | '-' :: t => t
    | t => t
  if ds ≠ [] ∧ ds.all Char.isDigit = true then
    some (if neg then -(digitsValue 10 ds : Int) else (digitsValue 10 ds : Int))
  else none

/-- An unsigned decimal literal: `Infinity`, or digits with an optional fraction
and an optional exponent, at least one digit in the mantissa. -/
def parseUnsignedDecimal (cs : List Char) : JSNum :=
  if cs = ['I', 'n', 'f', 'i', 'n', 'i', 't', 'y'] then .posInf
  else
    let ip := cs.takeWhile Char.isDigit
    let r1 := cs.dropWhile Char.isDigit
    let fp := match r1 with
      | '.' :: t => t.takeWhile Char.isDigit
      | _ => []
    let r2 := match r1 with
      | '.' :: t => t.dropWhile Char.isDigit
      | _ => r1
    if ip = [] ∧ fp = [] then .nan
    else
      let mant : ℚ := (digitsValue 10 (ip ++ fp) : ℚ) / (10 : ℚ) ^ fp.length
      match r2 with
      | [] => .fin mant
      | e :: t =>
        if e = 'e' ∨ e = 'E' then
          match parseExponent t with
          | some x => .fin (mant * (10 : ℚ) ^ x)
          | none => .nan
        else .nan

/-- A numeric literal without surrounding white space. -/
def parseNumeric (cs : List Char) : JSNum :=
  match cs with
  | '0' :: 'x' :: ds => parseRadix 16 ds
  | '0' :: 'X' :: ds => parseRadix 16 ds
  | '0' :: 'o' :: ds => parseRadix 8 ds
  | '0' :: 'O' :: ds => parseRadix 8 ds
  | '0' :: 'b' :: ds => parseRadix 2 ds
  | '0' :: 'B' :: ds => parseRadix 2 ds
  | '+' :: t => parseUnsignedDecimal t
  | '-' :: t => (parseUnsignedDecimal t).neg
  | _ => parseUnsignedDecimal cs

/-- The builtin `Number(s)` on a string: white space is skipped, the empty
string is `0`, a numeric literal is its value, anything else is `NaN`. -/
def stringToNumber (s : String) : JSNum :=
  let cs := trimChars s.data
  if cs = [] then .fin 0 else parseNumeric cs

/-- The values that `lsGet` of `week.js` can return: a stored string or the
default it was given (a number or a string). -/
inductive JSVal where
  | str (s : String)
  | num (x : JSNum)
  deriving DecidableEq

/-- The expression `v || 0`: the falsy values (empty string, zero, `NaN`) become `0`. -/
def orZero (v : JSVal) : JSVal :=
  match v with
  | .str s => if s = "" then .num (.fin 0) else .str s
  | .num x => if x = .fin 0 ∨ x = .nan then .num (.fin 0) else .num x

/-- The builtin `Number(v)`. -/
def toNumber : JSVal → JSNum
  | .str s => stringToNumber s
  | .num x => x

/-- Source function `clamp01(v)`: `Math.max(0, Math.min(100, Number(v||0)))`. -/
def clamp01 (v : JSVal) : JSNum :=
  mathMax (.fin 0) (mathMin (.fin 100) (toNumber (orZero v)))

/-! ## week.js: storage helpers and progress -/

/-- The browser store `localStorage`: each key holds a string or nothing. -/
abbrev Storage := String → Option String

/-- Source function `LS(key)`. -/
def LS (key : String) : String :=
  "circle8_" ++ key

/-- Source function `lsGet(key, def)` of `week.js`. -/
def lsGet (ls : Storage) (key : String) (dflt : JSVal) : JSVal :=
  match ls (LS key) with
  | none => dflt
  | some v => .str v

/-- Source function `lsSet(key, val)` of `week.js`. -/
def lsSet (ls : Storage) (key : String) (val : String) : Storage :=
  fun k => if k = LS key then some val else ls k

/-- Source function `lsDel(key)` of `week.js`. -/
def lsDel (ls : Storage) (key : String) : Storage :=
  fun k => if k = LS key then none else ls k

/-- The result `{ M, W }` of `parseWeekFromPath()`. -/
structure WeekId where
  M : Nat
  W : Nat
  deriving DecidableEq

/-- The object `keys` of the page initialiser. -/
structure Keys where
  read : String
  last : String
  best : String
  deriving DecidableEq

/-- The three key names of a lesson: `m{M}_w{W}_read`, `..._last`, `..._best`. -/
def keysOf (id : WeekId) : Keys :=
  { read := "m" ++ toString id.M ++ "_w" ++ toString id.W ++ "_read"
    last := "m" ++ toString id.M ++ "_w" ++ toString id.W ++ "_last"
    best := "m" ++ toString id.M ++ "_w" ++ toString id.W ++ "_best" }

/-- What `refreshProgressUI` computes and writes into the page: the last and
best percentages, the read flag and the width `p` of the progress bar. -/
structure Display where
  last : JSNum
  best : JSNum
  read : Bool
  bar : JSNum
  deriving DecidableEq

/-- Source function `refreshProgressUI(keys)`. -/
def refreshProgressUI (ls : Storage) (keys : Keys) : Display :=
  let last := clamp01 (lsGet ls keys.last (.num (.fin 0)))
  let best := clamp01 (lsGet ls keys.best (.num (.fin 0)))
  let read := decide (lsGet ls keys.read (.str "0") = .str "1")
  let p := mathMax (.fin (if read then 50 else 0)) best
  { last := last, best := best, read := read, bar := p }

/-- The click handler of `#markReadBtn`, up to the repaint. -/
def markReadClick (ls : Storage) (keys : Keys) : Storage :=
  lsSet ls keys.read "1"

/-- The click handler of `#resetPageBtn`, up to the repaint. -/
def resetClick (ls : Storage) (keys : Keys) : Storage :=
  lsDel (lsDel (lsDel ls keys.read) keys.last) keys.best

/-! ## week.js: grading -/

/-- The value `pick` of `gradeCurrent`: the checked radio value, or `-1`. -/
def pickOf (chosen : Option Nat) : Int :=
  match chosen with
  | some v => (v : Int)
  | none => -1

/-- The test `pick === q.a` for an entry of the set. -/
def isCorrect (chosen : Option Nat) (q : Entry) : Bool :=
  match q.fields with
  | some f => decide (pickOf chosen = f.a)
  | none => false

/-- Source function `gradeCurrent(set)`. The argument `area` is the element
`#quizArea` (absent, or for each question number the value of its checked radio
input if there is one). -/
def gradeCurrent (area : Option (Nat → Option Nat)) (set : List Entry) : Int :=
  match area with
  | none => 0
  | some checked =>
    let correct : Nat :=
      set.enum.foldl (fun correct nq => if isCorrect (checked nq.1) nq.2 then correct + 1 else correct) 0
    mathRound ((correct : ℚ) / 10 * 100)

/-- The storage part of the `#submitBtn` click handler: `lastScorePercent` is
written, then the best score is read back through `clamp01` and overwritten when
the new percentage is greater. -/
def recordScore (keys : Keys) (ls : Storage) (percent : Int) : Storage :=
  let ls1 := lsSet ls keys.last (toString percent)
  let best := clamp01 (lsGet ls1 keys.best (.num (.fin 0)))
  if JSNum.gt (.fin (percent : ℚ)) best then lsSet ls1 keys.best (toString percent) else ls1

/-- The click handler of `#submitBtn`, up to the repaint. -/
def submitClick (keys : Keys) (area : Option (Nat → Option Nat)) (currentSet : List Entry)
    (ls : Storage) : Storage :=
  if currentSet.length = 0 then ls
  else recordScore keys ls (gradeCurrent area currentSet)

/-- A sequence of quiz submissions of one lesson whose graded percentages are
`ps`, each stored by `recordScore`. -/
def recordScores (keys : Keys) (ls : Storage) (ps : List Nat) : Storage :=
  ps.foldl (fun s p => recordScore keys s (p : Int)) ls

/-! ## storage.js and login.js -/

/-- The persisted and in-memory lock state `{ attempts, until }`; the field
`until` is written `until_`. -/
structure LockState where
  attempts : Nat
  until_ : Nat
  deriving DecidableEq, Repr

/-- One record of the user list. -/
structure User where
  username : String
  pass_sha256 : String
  deriving DecidableEq, Repr

/-- The session object written by `setSession`. -/
structure Session where
  username : String
  token : String
  createdAt : Nat
  deriving DecidableEq, Repr

/-- The entries that `login.js` keeps under the prefix `circle8_`, as the values
that `JSON.parse` gives back for them: `lock`, `session` and `remember`. -/
structure AuthStore where
  lock : Option LockState
  session : Option Session
  remember : Option String
  deriving DecidableEq, Repr

/-- The constant `MAX_ATTEMPTS`. -/
def MAX_ATTEMPTS : Nat := 5

/-- The constant `LOCK_MINUTES`. -/
def LOCK_MINUTES : Nat := 10

/-- The list `EMBEDDED_USERS`. -/
def EMBEDDED_USERS : List User :=
  [{ username := "veinarous"
     pass_sha256 := "7507fa0c4969976e4baacf589f16e908faa2ba3aa6649051e7e608175b3dd823" }]

/-- Source function `setSession(username)` of `storage.js`; `words` are the four
values of `crypto.getRandomValues` and `now` the reading of `Date.now()`. -/
def setSession (st : AuthStore) (username : String) (words : List Nat) (now : Nat) : AuthStore :=
  let token := "-".intercalate (words.map toString)
  { st with session := some { username := username, token := token, createdAt := now } }

/-- Source function `clearSession()` of `storage.js`. -/
def clearSession (st : AuthStore) : AuthStore :=
  { st with session := none }

/-- The load of the lock state: `lsGet('lock', { attempts: 0, until: 0 })`. -/
def loadLock (st : AuthStore) : LockState :=
  match st.lock with
  | some l => l
  | none => { attempts := 0, until_ := 0 }

/-- The messages shown by `showToast` in `login.js`. -/
inductive Toast where
  | locked (minutes : Int)
  | welcome
  | tooMany
  | invalid (attemptsLeft : Int)
  deriving DecidableEq, Repr

/-- The text that `updateLockUI` puts into `#attemptsInfo`. -/
inductive AttemptsInfo where
  | lockedUntil (t : Nat)
  | attempts (k : Nat) (max : Nat)
  | empty
  deriving DecidableEq, Repr

/-- Source function `updateLockUI(lock)`; `now` is its reading of `Date.now()`. -/
def updateLockUI (now : Nat) (lock : LockState) : AttemptsInfo :=
  if now < lock.until_ then .lockedUntil lock.until_
  else if lock.attempts ≠ 0 then .attempts lock.attempts MAX_ATTEMPTS
  else .empty

/-- The state of the login page: the in-memory object `lock`, the store, and
what the handler has shown or scheduled. -/
structure LoginPage where
  lock : LockState
  store : AuthStore
  toast : Option Toast
  attemptsInfo : AttemptsInfo
  wasValidated : Bool
  redirect : Bool
  deriving DecidableEq, Repr

/-- One submit event: the form content and every external reading the handler
makes, one field per call site of `Date.now()`. -/
structure Submit where
  valid : Bool
  username : String
  password : String
  rememberMe : Bool
  tokenWords : List Nat
  tGate : Nat
  tMsg : Nat
  tLock : Nat
  tSession : Nat
  tUI : Nat

/-- The page after the script has loaded the lock state and painted it. -/
def pageLoad (st : AuthStore) (now : Nat) : LoginPage :=
  let lock := loadLock st
  { lock := lock, store := st, toast := none, attemptsInfo := updateLockUI now lock
    wasValidated := false, redirect := false }

/-- The gate at the top of the submit handler: `Date.now() < lock.until`. -/
def gateRejects (lock : LockState) (now : Nat) : Bool :=
  decide (now < lock.until_)

/-- The minutes shown in the lock message: `Math.ceil((lock.until - Date.now()) / 60000)`. -/
def minutesLeft (until_ now : Nat) : Int :=
  Int.ceil (((until_ : ℚ) - (now : ℚ)) / 60000)

/-- The credential comparison of the submit handler:
`users.some(rec => rec.username === u && rec.pass_sha256 === pHash)`. -/
def credentialsMatch (users : List User) (u pHash : String) : Bool :=
  users.any (fun rec => rec.username == u && rec.pass_sha256 == pHash)

/-- The credential check of the submit handler from the raw form values: the
identifier is trimmed, the secret is digested, then the list is searched. -/
def checkCredentials (sha256Hex : String → String) (users : List User)
    (username password : String) : Bool :=
  let u := jsTrim username
  let p := password
  let pHash := sha256Hex p
  credentialsMatch users u pHash

/-- The submit handler of the login form, one run from start to end. -/
def onSubmit (sha256Hex : String → String) (users : List User) (pg : LoginPage)
    (e : Submit) : LoginPage :=
  if gateRejects pg.lock e.tGate then
    { pg with toast := some (.locked (minutesLeft pg.lock.until_ e.tMsg)) }
  else if !e.valid then
    { pg with wasValidated := true }
  else
    let u := jsTrim e.username
    if checkCredentials sha256Hex users e.username e.password then
      let st1 := setSession pg.store u e.tokenWords e.tSession
      let st2 := if e.rememberMe then { st1 with remember := some u } else st1
      let st3 := { st2 with lock := none }
      { pg with store := st3, toast := some .welcome, redirect := true }
    else
      let attempts := pg.lock.attempts + 1
      if MAX_ATTEMPTS ≤ attempts then
        let lock : LockState := { attempts := attempts, until_ := e.tLock + LOCK_MINUTES * 60 * 1000 }
        { pg with lock := lock, store := { pg.store with lock := some lock }
                  toast := some .tooMany, attemptsInfo := updateLockUI e.tUI lock }
      else
        let lock : LockState := { attempts := attempts, until_ := pg.lock.until_ }
        { pg with lock := lock, store := { pg.store with lock := some lock }
                  toast := some (.invalid ((MAX_ATTEMPTS : Int) - (attempts : Int)))
                  attemptsInfo := updateLockUI e.tUI lock }

/-- A sequence of submit events handled one after the other. -/
def runSubmits (sha256Hex : String → String) (users : List User) (pg : LoginPage)
    (es : List Submit) : LoginPage :=
  es.foldl (onSubmit sha256Hex users) pg

/-- Whether, along the sequence, every submit event made once `attempts` has
reached `MAX_ATTEMPTS` is stopped by the gate (it arrives before `until`). -/
def staysWithinLock (sha256Hex : String → String) (users : List User) :
    LoginPage → List Submit → Bool
  | _, [] => true
  | pg, e :: es =>
    (decide (pg.lock.attempts < MAX_ATTEMPTS) || gateRejects pg.lock e.tGate) &&
      staysWithinLock sha256Hex users (onSubmit sha256Hex users pg e) es

/-! ## Sample inputs -/

/-- A stand-in digest used at concrete inputs. -/
def sampleDigest : String → String := fun p => "#" ++ p

/-- A one-record user list for the stand-in digest. -/
def sampleUsers : List User := [{ username := "veinarous", pass_sha256 := "#open" }]

/-- A store with no entries. -/
def emptyStore : AuthStore := { lock := none, session := none, remember := none }

/-- A submit event with wrong credentials whose gate reading is `t`. -/
def sampleFail (t : Nat) : Submit :=
  { valid := true, username := "mallory", password := "guess", rememberMe := false
    tokenWords := [1, 2, 3, 4], tGate := t, tMsg := t, tLock := t + 1, tSession := t + 1
    tUI := t + 2 }

/-- A submit event with the right credentials whose gate reading is `t`. -/
def sampleGood (t : Nat) : Submit :=
  { valid := true, username := "veinarous", password := "open", rememberMe := true
    tokenWords := [1, 2, 3, 4], tGate := t, tMsg := t, tLock := t + 1, tSession := t + 1
    tUI := t + 2 }

/-- The login page after five failed submit events on a fresh store. -/
def lockedPage : LoginPage :=
  runSubmits sampleDigest sampleUsers (pageLoad emptyStore 0)
    [sampleFail 0, sampleFail 10, sampleFail 20, sampleFail 30, sampleFail 40]

/-- The ten decimal digit characters. -/
def decChars : List Char := ['0', '1', '2', '3', '4', '5', '6', '7', '8', '9']

/-- Spec side of grading: the number of questions of the set whose selected
index equals the correct index; an unanswered question does not count. -/
def correctCount (checked : Nat → Option Nat) (set : List Entry) : Nat :=
  (set.enum.filter (fun nq =>
    match checked nq.1, nq.2.fields with
    | some v, some f => decide ((v : Int) = f.a)
    | _, _ => false)).length

/-- A bank of twelve two-choice questions whose correct index is 1. -/
def sampleBank : List Question :=
  (List.range 12).map (fun k => { q := toString k, c := ["a", "b"], a := 1 })

/-- A random source whose `k`-th outcome is `(k mod 7) / 7`. -/
def sampleRnd : Nat → Rand :=
  fun k => { num := k % 7, den := 7, lt_one := Nat.mod_lt k (by decide) }

/-- A set of ten entries sampled from `sampleBank`. -/
def sampleSet : List Entry := pickRandomTen sampleBank sampleRnd

/-- Selections that answer the first seven questions with index 1 and leave the
last three unanswered. -/
def sampleChecked : Nat → Option Nat := fun n => if n < 7 then some 1 else none

/-! ### Sampling lemmas -/

theorem Rand.floorMul_lt (r : Rand) (k : Nat) (hk : 0 < k) : r.floorMul k < k := by
  unfold Rand.floorMul
  have hd : 0 < r.den := Nat.lt_of_le_of_lt (Nat.zero_le _) r.lt_one
  rw [Nat.div_lt_iff_lt_mul hd]
  exact Nat.mul_lt_mul_of_lt_of_le r.lt_one (Nat.le_refl k) hk |>.trans_eq (Nat.mul_comm _ _)

theorem swapAt_length (idx : List Nat) (i j : Nat) : (swapAt idx i j).length = idx.length := by
  simp [swapAt]

theorem swapAt_perm (idx : List Nat) (i j : Nat) (hi : i < idx.length) (hj : j < idx.length) :
    (swapAt idx i j).Perm idx := by
  rw [List.perm_iff_count]
  intro a
  unfold swapAt
  simp only
  rw [List.count_set _ _ _ _ (by simpa using hj), List.count_set _ _ _ _ hi]
  by_cases hij : i = j
  · subst hij
    simp [List.getD_eq_getElem?_getD, List.getElem?_eq_getElem hi]
    have := List.count_pos_iff.2 (List.getElem_mem hi)
    split_ifs with e
    · subst e; omega
    · omega
  · simp only [List.getD_eq_getElem?_getD, List.getElem?_eq_getElem hi,
      List.getElem?_eq_getElem hj, Option.getD_some, List.getElem_set_ne hij]
    have h1 := List.count_pos_iff.2 (List.getElem_mem hi)
    have h2 := List.count_pos_iff.2 (List.getElem_mem hj)
    by_cases e1 : idx[i] = a <;> by_cases e2 : idx[j] = a <;> simp [e1, e2] <;>
      first
        | omega
        | (subst e1; omega)

theorem shuffleLoop_perm (rnd : Nat → Rand) :
    ∀ (i k : Nat) (idx : List Nat), i < idx.length ∨ i = 0 → (shuffleLoop rnd i k idx).Perm idx
  | 0, _, idx, _ => by simp [shuffleLoop]
  | i + 1, k, idx, h => by
    have hi : i + 1 < idx.length := by omega
    have hj : (rnd k).floorMul (i + 1 + 1) < i + 1 + 1 := Rand.floorMul_lt _ _ (by omega)
    have hsw := swapAt_perm idx (i + 1) ((rnd k).floorMul (i + 1 + 1)) hi (by omega)
    have ih := shuffleLoop_perm rnd i (k + 1) (swapAt idx (i + 1) ((rnd k).floorMul (i + 1 + 1)))
      (Or.inl (by rw [swapAt_length]; omega))
    simpa [shuffleLoop] using ih.trans hsw

theorem shuffled_range_perm (rnd : Nat → Rand) (n : Nat) :
    (shuffleLoop rnd ((List.range n).length - 1) 0 (List.range n)).Perm (List.range n) := by
  apply shuffleLoop_perm
  simp only [List.length_range]
  omega


/-! ### Login lemmas -/

theorem onSubmit_of_gate (sha256Hex : String → String) (users : List User) (pg : LoginPage)
    (e : Submit) (h : e.tGate < pg.lock.until_) :
    onSubmit sha256Hex users pg e =
      { pg with toast := some (.locked (minutesLeft pg.lock.until_ e.tMsg)) } := by
  simp [onSubmit, gateRejects, h]

theorem onSubmit_of_failure (sha256Hex : String → String) (users : List User) (pg : LoginPage)
    (e : Submit) (hgate : pg.lock.until_ ≤ e.tGate) (hvalid : e.valid = true)
    (hbad : checkCredentials sha256Hex users e.username e.password = false) :
    (onSubmit sha256Hex users pg e).lock =
      { attempts := pg.lock.attempts + 1
        until_ := if MAX_ATTEMPTS ≤ pg.lock.attempts + 1 then e.tLock + 600000
                  else pg.lock.until_ } ∧
    (onSubmit sha256Hex users pg e).store.lock = some (onSubmit sha256Hex users pg e).lock := by
  have hg : ¬ e.tGate < pg.lock.until_ := Nat.not_lt.2 hgate
  by_cases hm : MAX_ATTEMPTS ≤ pg.lock.attempts + 1 <;>
    simp [onSubmit, gateRejects, hg, hvalid, hbad, hm, LOCK_MINUTES]

theorem onSubmit_lock_of_not_failure (sha256Hex : String → String) (users : List User)
    (pg : LoginPage) (e : Submit)
    (h : e.tGate < pg.lock.until_ ∨ e.valid = false ∨
      checkCredentials sha256Hex users e.username e.password = true) :
    (onSubmit sha256Hex users pg e).lock = pg.lock := by
  unfold onSubmit
  by_cases hg : gateRejects pg.lock e.tGate = true
  · simp [hg]
  · by_cases hv : e.valid = true
    · by_cases hc : checkCredentials sha256Hex users e.username e.password = true
      · simp [hg, hv, hc]
      · rcases h with h | h | h
        · exact absurd (by simpa [gateRejects] using h) hg
        · simp [h] at hv
        · exact absurd h hc
    · simp [hg, hv]

theorem runSubmits_append (sha256Hex : String → String) (users : List User) (pg : LoginPage)
    (es fs : List Submit) :
    runSubmits sha256Hex users pg (es ++ fs) =
      runSubmits sha256Hex users (runSubmits sha256Hex users pg es) fs := by
  simp [runSubmits, List.foldl_append]

theorem runSubmits_failures (sha256Hex : String → String) (users : List User) :
    ∀ (es : List Submit) (pg : LoginPage), pg.lock.until_ = 0 →
      (∀ e ∈ es, e.valid = true ∧
        checkCredentials sha256Hex users e.username e.password = false) →
      pg.lock.attempts + es.length < MAX_ATTEMPTS →
      (runSubmits sha256Hex users pg es).lock =
        { attempts := pg.lock.attempts + es.length, until_ := 0 }
  | [], pg, h0, _, _ => by
    cases pg with
    | mk lock _ _ _ _ _ => cases lock; simp_all [runSubmits]
  | e :: es, pg, h0, hf, hlen => by
    have he := hf e (List.mem_cons_self _ _)
    have hstep := (onSubmit_of_failure sha256Hex users pg e (by omega) he.1 he.2).1
    simp only [List.length_cons] at hlen
    have hm : ¬ MAX_ATTEMPTS ≤ pg.lock.attempts + 1 := by omega
    rw [if_neg hm, h0] at hstep
    have ih := runSubmits_failures sha256Hex users es (onSubmit sha256Hex users pg e)
      (by rw [hstep]) (fun x hx => hf x (List.mem_cons_of_mem _ hx))
      (by rw [hstep]; simp only; omega)
    have : runSubmits sha256Hex users pg (e :: es) =
        runSubmits sha256Hex users (onSubmit sha256Hex users pg e) es := rfl
    rw [this, ih, hstep]
    simp only [List.length_cons, LockState.mk.injEq, and_true]
    omega

theorem staysWithinLock_inv (sha256Hex : String → String) (users : List User) :
    ∀ (es : List Submit) (pg : LoginPage),
      pg.lock.attempts ≤ MAX_ATTEMPTS → (pg.lock.attempts < MAX_ATTEMPTS → pg.lock.until_ = 0) →
      staysWithinLock sha256Hex users pg es = true →
      (runSubmits sha256Hex users pg es).lock.attempts ≤ MAX_ATTEMPTS ∧
      ((runSubmits sha256Hex users pg es).lock.attempts < MAX_ATTEMPTS →
        (runSubmits sha256Hex users pg es).lock.until_ = 0)
  | [], pg, h1, h2, _ => ⟨h1, h2⟩
  | e :: es, pg, h1, h2, hw => by
    simp only [staysWithinLock, Bool.and_eq_true, Bool.or_eq_true, decide_eq_true_eq] at hw
    obtain ⟨hstep, hrest⟩ := hw
    have key : (onSubmit sha256Hex users pg e).lock.attempts ≤ MAX_ATTEMPTS ∧
        ((onSubmit sha256Hex users pg e).lock.attempts < MAX_ATTEMPTS →
          (onSubmit sha256Hex users pg e).lock.until_ = 0) := by
      by_cases hf : e.tGate < pg.lock.until_ ∨ e.valid = false ∨
          checkCredentials sha256Hex users e.username e.password = true
      · rw [onSubmit_lock_of_not_failure _ _ _ _ hf]
        exact ⟨h1, h2⟩
      · simp only [not_or, Nat.not_lt, Bool.not_eq_false, Bool.not_eq_true] at hf
        obtain ⟨hg, hv, hc⟩ := hf
        have hlt : pg.lock.attempts < MAX_ATTEMPTS := by
          rcases hstep with h | h
          · exact h
          · simp only [gateRejects, decide_eq_true_eq] at h
            omega
        rw [(onSubmit_of_failure _ _ _ _ hg hv hc).1]
        simp only [MAX_ATTEMPTS] at hlt ⊢
        refine ⟨by omega, fun h => ?_⟩
        rw [if_neg (by omega)]
        exact h2 (by simp only [MAX_ATTEMPTS]; omega)
    exact staysWithinLock_inv sha256Hex users es _ key.1 key.2 hrest

/-! ### Decimal strings -/

theorem digitChar_mem (k : Nat) (hk : k < 10) : Nat.digitChar k ∈ decChars := by
  interval_cases k <;> decide

theorem radixDigit_digitChar (k : Nat) (hk : k < 10) : radixDigit (Nat.digitChar k) = k := by
  interval_cases k <;> decide

theorem decChars_isDigit (c : Char) (h : c ∈ decChars) : c.isDigit = true := by
  simp only [decChars, List.mem_cons, List.mem_singleton, List.not_mem_nil, or_false] at h
  rcases h with h | h | h | h | h | h | h | h | h | h <;> subst h <;> decide

theorem decChars_not_space (c : Char) (h : c ∈ decChars) : isStrWhiteSpaceChar c = false := by
  simp only [decChars, List.mem_cons, List.mem_singleton, List.not_mem_nil, or_false] at h
  rcases h with h | h | h | h | h | h | h | h | h | h <;> subst h <;> decide

theorem digitsValue_append_single (base : Nat) (cs : List Char) (c : Char) :
    digitsValue base (cs ++ [c]) = base * digitsValue base cs + radixDigit c := by
  simp [digitsValue, List.foldl_append]

theorem toDigitsCore_acc (fuel : Nat) : ∀ (n : Nat) (ds : List Char),
    Nat.toDigitsCore 10 fuel n ds = Nat.toDigitsCore 10 fuel n [] ++ ds := by
  induction fuel with
  | zero => intro n ds; simp [Nat.toDigitsCore]
  | succ fuel ih =>
    intro n ds
    simp only [Nat.toDigitsCore]
    by_cases h : n / 10 = 0
    · simp [h]
    · simp only [h, ↓reduceIte]
      rw [ih (n / 10) (Nat.digitChar (n % 10) :: ds), ih (n / 10) [Nat.digitChar (n % 10)]]
      simp

theorem toDigitsCore_spec (fuel : Nat) : ∀ (n : Nat), n < fuel →
    digitsValue 10 (Nat.toDigitsCore 10 fuel n []) = n ∧
    (∀ c ∈ Nat.toDigitsCore 10 fuel n [], c ∈ decChars) ∧
    Nat.toDigitsCore 10 fuel n [] ≠ [] := by
  induction fuel with
  | zero => intro n h; omega
  | succ fuel ih =>
    intro n hn
    simp only [Nat.toDigitsCore]
    have hd := digitChar_mem (n % 10) (Nat.mod_lt _ (by decide))
    have hv := radixDigit_digitChar (n % 10) (Nat.mod_lt _ (by decide))
    by_cases h : n / 10 = 0
    · simp only [h, ↓reduceIte]
      refine ⟨?_, ?_, by simp⟩
      · simp only [digitsValue, List.foldl_cons, List.foldl_nil, hv]
        omega
      · intro c hc
        simp only [List.mem_singleton] at hc
        exact hc ▸ hd
    · simp only [h, ↓reduceIte]
      rw [toDigitsCore_acc]
      obtain ⟨h1, h2, h3⟩ := ih (n / 10) (by omega)
      refine ⟨?_, ?_, by simp [h3]⟩
      · rw [digitsValue_append_single, h1, hv]
        omega
      · intro c hc
        rcases List.mem_append.1 hc with hc | hc
        · exact h2 c hc
        · simp only [List.mem_singleton] at hc
          exact hc ▸ hd

theorem toString_nat_data (n : Nat) :
    digitsValue 10 (toString n).data = n ∧ (∀ c ∈ (toString n).data, c ∈ decChars) ∧
    (toString n).data ≠ [] := by
  have h := toDigitsCore_spec (n + 1) n (Nat.lt_succ_self n)
  simpa [toString, Nat.repr, Nat.toDigits, List.asString] using h

theorem toString_nat_injective (m n : Nat) (h : toString m = toString n) : m = n := by
  rw [← (toString_nat_data m).1, ← (toString_nat_data n).1, h]

theorem toString_int_ofNat (n : Nat) : toString ((n : Nat) : Int) = toString n := rfl

/-! ### `Number` on decimal strings -/

theorem dropWhile_of_head_false {α : Type} (p : α → Bool) (c : α) (cs : List α)
    (h : p c = false) : (c :: cs).dropWhile p = c :: cs := by
  simp [List.dropWhile, h]

theorem trimChars_of_dec (cs : List Char) (h : ∀ c ∈ cs, c ∈ decChars) : trimChars cs = cs := by
  unfold trimChars
  cases cs with
  | nil => rfl
  | cons c cs =>
    rw [dropWhile_of_head_false _ _ _ (decChars_not_space c (h c (List.mem_cons_self _ _)))]
    rcases hr : (c :: cs).reverse with _ | ⟨d, ds⟩
    · simp at hr
    · have hd : d ∈ c :: cs := by
        rw [← List.mem_reverse, hr]
        exact List.mem_cons_self _ _
      rw [dropWhile_of_head_false _ _ _ (decChars_not_space d (h d hd)), ← hr,
        List.reverse_reverse]

theorem takeWhile_of_all {α : Type} (p : α → Bool) (cs : List α) (h : ∀ c ∈ cs, p c = true) :
    cs.takeWhile p = cs ∧ cs.dropWhile p = [] := by
  induction cs with
  | nil => simp
  | cons c cs ih =>
    have hc := h c (List.mem_cons_self _ _)
    have := ih (fun x hx => h x (List.mem_cons_of_mem _ hx))
    simp [List.takeWhile, List.dropWhile, hc, this]

theorem parseUnsignedDecimal_of_dec (cs : List Char) (h : ∀ c ∈ cs, c ∈ decChars)
    (hne : cs ≠ []) : parseUnsignedDecimal cs = .fin (digitsValue 10 cs : ℚ) := by
  have hI : cs ≠ ['I', 'n', 'f', 'i', 'n', 'i', 't', 'y'] := by
    intro hc
    have := h 'I' (by rw [hc]; exact List.mem_cons_self _ _)
    exact absurd this (by decide)
  obtain ⟨ht, hd⟩ := takeWhile_of_all Char.isDigit cs (fun c hc => decChars_isDigit c (h c hc))
  unfold parseUnsignedDecimal
  simp [hI, ht, hd, hne]

theorem parseNumeric_of_dec (cs : List Char) (h : ∀ c ∈ cs, c ∈ decChars) (hne : cs ≠ []) :
    parseNumeric cs = .fin (digitsValue 10 cs : ℚ) := by
  have hx : ∀ (x : Char), x ∉ decChars → x ∉ cs := fun x hx hm => hx (h x hm)
  unfold parseNumeric
  split
  · exact absurd (List.mem_cons_of_mem _ (List.mem_cons_self _ _)) (hx 'x' (by decide))
  · exact absurd (List.mem_cons_of_mem _ (List.mem_cons_self _ _)) (hx 'X' (by decide))
  · exact absurd (List.mem_cons_of_mem _ (List.mem_cons_self _ _)) (hx 'o' (by decide))
  · exact absurd (List.mem_cons_of_mem _ (List.mem_cons_self _ _)) (hx 'O' (by decide))
  · exact absurd (List.mem_cons_of_mem _ (List.mem_cons_self _ _)) (hx 'b' (by decide))
  · exact absurd (List.mem_cons_of_mem _ (List.mem_cons_self _ _)) (hx 'B' (by decide))
  · exact absurd (List.mem_cons_self _ _) (hx '+' (by decide))
  · exact absurd (List.mem_cons_self _ _) (hx '-' (by decide))
  · exact parseUnsignedDecimal_of_dec cs h hne

theorem stringToNumber_toString (n : Nat) : stringToNumber (toString n) = .fin (n : ℚ) := by
  obtain ⟨hv, hd, hne⟩ := toString_nat_data n
  unfold stringToNumber
  simp only [trimChars_of_dec _ hd, hne, ↓reduceIte]
  rw [parseNumeric_of_dec _ hd hne, hv]

theorem toString_nat_ne_empty (n : Nat) : toString n ≠ "" := by
  intro h
  have := (toString_nat_data n).2.2
  rw [h] at this
  exact this rfl

theorem clamp01_toString (n : Nat) (hn : n ≤ 100) :
    clamp01 (.str (toString n)) = .fin (n : ℚ) := by
  have h100 : (n : ℚ) ≤ 100 := by exact_mod_cast hn
  have h0 : (0 : ℚ) ≤ (n : ℚ) := by exact_mod_cast Nat.zero_le n
  simp [clamp01, orZero, toString_nat_ne_empty, toNumber, stringToNumber_toString, mathMin,
    mathMax, h100, h0]

theorem clamp01_zero : clamp01 (.num (.fin 0)) = .fin 0 := by
  simp [clamp01, orZero, toNumber, mathMin, mathMax]

/-! ### Key names -/

theorem LS_injective (a b : String) (h : LS a = LS b) : a = b := by
  unfold LS at h
  have := congrArg String.data h
  simp only [String.data_append, List.append_cancel_left_eq] at this
  exact String.ext this

theorem dec_run_unique : ∀ (a b r s : List Char) (x y : Char),
    (∀ c ∈ a, c ∈ decChars) → (∀ c ∈ b, c ∈ decChars) → x ∉ decChars → y ∉ decChars →
    a ++ x :: r = b ++ y :: s → a = b ∧ x :: r = y :: s
  | [], [], _, _, _, _, _, _, _, _, h => ⟨rfl, by simpa using h⟩
  | [], d :: b, _, _, x, _, _, hb, hx, _, h => by
    simp only [List.nil_append, List.cons_append, List.cons.injEq] at h
    exact absurd (h.1 ▸ hb d (List.mem_cons_self _ _)) hx
  | c :: a, [], _, _, _, y, ha, _, _, hy, h => by
    simp only [List.nil_append, List.cons_append, List.cons.injEq] at h
    exact absurd (h.1 ▸ ha c (List.mem_cons_self _ _)) hy
  | c :: a, d :: b, r, s, x, y, ha, hb, hx, hy, h => by
    simp only [List.cons_append, List.cons.injEq] at h
    obtain ⟨h1, h2⟩ := dec_run_unique a b r s x y
      (fun z hz => ha z (List.mem_cons_of_mem _ hz))
      (fun z hz => hb z (List.mem_cons_of_mem _ hz)) hx hy h.2
    exact ⟨by rw [h.1, h1], h2⟩

/-- The key name `m{M}_w{W}` followed by a suffix. -/
theorem key_data (id : WeekId) (sfx : String) :
    ("m" ++ toString id.M ++ "_w" ++ toString id.W ++ sfx).data =
      'm' :: ((toString id.M).data ++ '_' :: ('w' :: ((toString id.W).data ++ sfx.data))) := by
  simp [String.data_append]

theorem key_injective (id1 id2 : WeekId) (s1 s2 : String) (x1 x2 : Char) (r1 r2 : List Char)
    (h1 : s1.data = x1 :: r1) (h2 : s2.data = x2 :: r2) (hx1 : x1 ∉ decChars)
    (hx2 : x2 ∉ decChars)
    (h : "m" ++ toString id1.M ++ "_w" ++ toString id1.W ++ s1 =
      "m" ++ toString id2.M ++ "_w" ++ toString id2.W ++ s2) : id1 = id2 ∧ s1 = s2 := by
  have hd := congrArg String.data h
  rw [key_data, key_data, h1, h2] at hd
  simp only [List.cons.injEq, true_and] at hd
  obtain ⟨hM, hrest⟩ := dec_run_unique _ _ _ _ _ _ (toString_nat_data id1.M).2.1
    (toString_nat_data id2.M).2.1 (by decide) (by decide) hd
  simp only [List.cons.injEq, true_and] at hrest
  obtain ⟨hW, hs⟩ := dec_run_unique _ _ _ _ _ _ (toString_nat_data id1.W).2.1
    (toString_nat_data id2.W).2.1 hx1 hx2 hrest
  have eM := toString_nat_injective _ _ (String.ext hM)
  have eW := toString_nat_injective _ _ (String.ext hW)
  refine ⟨?_, String.ext (by rw [h1, h2, hs])⟩
  cases id1; cases id2; simp_all

theorem keysOf_last_ne_best (id : WeekId) : LS (keysOf id).last ≠ LS (keysOf id).best := by
  intro h
  have := (key_injective id id "_last" "_best" '_' '_' _ _ rfl rfl (by decide) (by decide)
    (LS_injective _ _ h)).2
  exact absurd this (by decide)

theorem keysOf_disjoint (id1 id2 : WeekId) (hne : id1 ≠ id2) (k : String)
    (hk : k = LS (keysOf id2).read ∨ k = LS (keysOf id2).last ∨ k = LS (keysOf id2).best) :
    k ≠ LS (keysOf id1).read ∧ k ≠ LS (keysOf id1).last ∧ k ≠ LS (keysOf id1).best := by
  have key : ∀ s1 s2 : String, s1 ∈ ["_read", "_last", "_best"] →
      s2 ∈ ["_read", "_last", "_best"] →
      LS ("m" ++ toString id2.M ++ "_w" ++ toString id2.W ++ s2) ≠
        LS ("m" ++ toString id1.M ++ "_w" ++ toString id1.W ++ s1) := by
    intro s1 s2 h1 h2 h
    have hs1 : ∃ r, s1.data = '_' :: r := by
      simp only [List.mem_cons, List.mem_singleton, List.not_mem_nil, or_false] at h1
      rcases h1 with h1 | h1 | h1 <;> subst h1 <;> exact ⟨_, rfl⟩
    have hs2 : ∃ r, s2.data = '_' :: r := by
      simp only [List.mem_cons, List.mem_singleton, List.not_mem_nil, or_false] at h2
      rcases h2 with h2 | h2 | h2 <;> subst h2 <;> exact ⟨_, rfl⟩
    obtain ⟨r1, hr1⟩ := hs1
    obtain ⟨r2, hr2⟩ := hs2
    exact hne (key_injective id2 id1 s2 s1 '_' '_' r2 r1 hr2 hr1 (by decide) (by decide)
      (LS_injective _ _ h)).1.symm
  rcases hk with hk | hk | hk <;> subst hk <;>
    exact ⟨key _ _ (by simp) (by simp), key _ _ (by simp) (by simp), key _ _ (by simp) (by simp)⟩

/-! ### Storage lemmas -/

theorem resetClick_apply (ls : Storage) (keys : Keys) (k : String) :
    resetClick ls keys k =
      if k = LS keys.read ∨ k = LS keys.last ∨ k = LS keys.best then none else ls k := by
  unfold resetClick lsDel
  by_cases h1 : k = LS keys.best <;> by_cases h2 : k = LS keys.last <;>
    by_cases h3 : k = LS keys.read <;> simp [h1, h2, h3]

/-! ### Grading lemmas -/

theorem foldl_count {α : Type} (p : α → Bool) : ∀ (l : List α) (k : Nat),
    l.foldl (fun c x => if p x then c + 1 else c) k = k + (l.filter p).length
  | [], k => by simp
  | x :: l, k => by
    by_cases h : p x = true
    · simp only [List.foldl_cons, h, ↓reduceIte, List.filter_cons_of_pos, List.length_cons]
      rw [foldl_count p l (k + 1)]
      omega
    · simp only [List.foldl_cons, h, Bool.false_eq_true, ↓reduceIte]
      rw [foldl_count p l k, List.filter_cons_of_neg h]

theorem mathRound_ten_mul (c : Nat) : mathRound ((c : ℚ) / 10 * 100) = 10 * (c : Int) := by
  unfold mathRound
  rw [Int.floor_eq_iff]
  push_cast
  constructor <;> linarith

theorem isCorrect_eq (checked : Nat → Option Nat) (n : Nat) (e : Entry)
    (h : ∃ f, e.fields = some f ∧ 0 ≤ f.a ∧ f.a < f.c.length) :
    isCorrect (checked n) e =
      (match checked n, e.fields with
        | some v, some f => decide ((v : Int) = f.a)
        | _, _ => false) := by
  obtain ⟨f, hf, h0, _⟩ := h
  unfold isCorrect pickOf
  rw [hf]
  cases hc : checked n with
  | none =>
    simp only [decide_eq_false_iff_not]
    omega
  | some v => rfl

theorem gradeCurrent_eq (checked : Nat → Option Nat) (set : List Entry)
    (hidx : ∀ e ∈ set, ∃ f, e.fields = some f ∧ 0 ≤ f.a ∧ f.a < f.c.length) :
    gradeCurrent (some checked) set = 10 * (correctCount checked set : Int) := by
  unfold gradeCurrent correctCount
  simp only
  rw [foldl_count (fun nq : Nat × Entry => isCorrect (checked nq.1) nq.2), Nat.zero_add,
    mathRound_ten_mul]
  congr 2
  apply congrArg
  apply List.filter_congr
  intro x hx
  exact isCorrect_eq checked x.1 x.2 (hidx x.2 (List.snd_mem_of_mem_enum hx))

theorem correctCount_le (checked : Nat → Option Nat) (set : List Entry) :
    correctCount checked set ≤ set.length := by
  unfold correctCount
  exact (List.length_filter_le _ _).trans_eq List.enum_length

/-! ### Score lemmas -/

theorem recordScore_step (id : WeekId) (ls : Storage) (p m : Nat) (hp : p ≤ 100) (hm : m ≤ 100)
    (hbest : clamp01 (lsGet ls (keysOf id).best (.num (.fin 0))) = .fin (m : ℚ))
    (hraw : ls (LS (keysOf id).best) = if m = 0 then none else some (toString m)) :
    clamp01 (lsGet (recordScore (keysOf id) ls (p : Int)) (keysOf id).best (.num (.fin 0))) =
      .fin ((max m p : Nat) : ℚ) ∧
    recordScore (keysOf id) ls (p : Int) (LS (keysOf id).best) =
      (if max m p = 0 then none else some (toString (max m p))) ∧
    recordScore (keysOf id) ls (p : Int) (LS (keysOf id).last) = some (toString p) := by
  have hne := keysOf_last_ne_best id
  have hget : lsGet (lsSet ls (keysOf id).last (toString (p : Int))) (keysOf id).best
      (.num (.fin 0)) = lsGet ls (keysOf id).best (.num (.fin 0)) := by
    simp [lsGet, lsSet, Ne.symm hne]
  unfold recordScore
  simp only [hget, hbest, JSNum.gt, Int.cast_natCast, Nat.cast_lt]
  by_cases hlt : m < p
  · have hmax : max m p = p := max_eq_right (le_of_lt hlt)
    have hp0 : p ≠ 0 := by omega
    simp only [hlt, decide_True, ↓reduceIte, hmax, hp0]
    refine ⟨?_, ?_, ?_⟩
    · simp only [lsGet, lsSet, ↓reduceIte, toString_int_ofNat]
      exact clamp01_toString p hp
    · simp [lsSet, toString_int_ofNat]
    · simp [lsSet, hne, toString_int_ofNat]
  · have hmax : max m p = m := max_eq_left (Nat.le_of_not_lt hlt)
    simp only [hlt, decide_False, Bool.false_eq_true, ↓reduceIte, hmax]
    refine ⟨?_, ?_, ?_⟩
    · rw [hget, hbest]
    · simp [lsSet, Ne.symm hne, hraw]
    · simp [lsSet, toString_int_ofNat]

theorem recordScores_inv (id : WeekId) : ∀ (ps : List Nat) (ls : Storage) (m : Nat),
    (∀ x ∈ ps, x ≤ 100) → m ≤ 100 →
    clamp01 (lsGet ls (keysOf id).best (.num (.fin 0))) = .fin (m : ℚ) →
    ls (LS (keysOf id).best) = (if m = 0 then none else some (toString m)) →
    clamp01 (lsGet (recordScores (keysOf id) ls ps) (keysOf id).best (.num (.fin 0))) =
        .fin ((ps.foldl max m : Nat) : ℚ) ∧
      recordScores (keysOf id) ls ps (LS (keysOf id).best) =
        (if ps.foldl max m = 0 then none else some (toString (ps.foldl max m))) ∧
      ps.foldl max m ≤ 100
  | [], _, _, _, hm, hbest, hraw => ⟨hbest, hraw, hm⟩
  | p :: ps, ls, m, hps, hm, hbest, hraw => by
    have hp := hps p (List.mem_cons_self _ _)
    obtain ⟨h1, h2, _⟩ := recordScore_step id ls p m hp hm hbest hraw
    exact recordScores_inv id ps (recordScore (keysOf id) ls (p : Int)) (max m p)
      (fun x hx => hps x (List.mem_cons_of_mem _ hx)) (max_le hm hp) h1 h2

theorem foldl_max_ge (ps : List Nat) : ∀ m, m ≤ ps.foldl max m ∧ ∀ x ∈ ps, x ≤ ps.foldl max m := by
  induction ps with
  | nil => intro m; simp
  | cons p ps ih =>
    intro m
    obtain ⟨h1, h2⟩ := ih (max m p)
    refine ⟨le_trans (le_max_left m p) h1, ?_⟩
    intro x hx
    rcases List.mem_cons.1 hx with hx | hx
    · subst hx
      exact le_trans (le_max_right m x) h1
    · exact h2 x hx

/-! ### Range of `clamp01` -/

theorem clamp01_range (v : JSVal) :
    (clamp01 v = .nan ∧ toNumber (orZero v) = .nan) ∨
    ∃ q : ℚ, clamp01 v = .fin q ∧ 0 ≤ q ∧ q ≤ 100 := by
  unfold clamp01
  cases h : toNumber (orZero v) with
  | nan => left; simp [mathMin, mathMax]
  | negInf => right; exact ⟨0, by simp [mathMin, mathMax], le_refl _, by norm_num⟩
  | posInf => right; exact ⟨100, by simp [mathMin, mathMax], by norm_num, le_refl _⟩
  | fin q =>
    right
    refine ⟨max 0 (min 100 q), by simp [mathMin, mathMax], le_max_left _ _, ?_⟩
    exact max_le (by norm_num) (min_le_left _ _)

/-! ### Trimming -/

theorem trimChars_decomp (cs : List Char) :
    ∃ pre post : List Char, cs = pre ++ trimChars cs ++ post ∧
      (∀ c ∈ pre, isStrWhiteSpaceChar c = true) ∧ (∀ c ∈ post, isStrWhiteSpaceChar c = true) := by
  refine ⟨cs.takeWhile isStrWhiteSpaceChar,
    ((cs.dropWhile isStrWhiteSpaceChar).reverse.takeWhile isStrWhiteSpaceChar).reverse,
    ?_, ?_, ?_⟩
  · unfold trimChars
    rw [List.append_assoc, ← List.reverse_append, List.takeWhile_append_dropWhile,
      List.reverse_reverse, List.takeWhile_append_dropWhile]
  · intro c hc
    exact List.mem_takeWhile_imp hc
  · intro c hc
    exact List.mem_takeWhile_imp (List.mem_reverse.1 hc)

theorem trimChars_ends (cs : List Char) (c : Char) :
    ((trimChars cs).head? = some c → isStrWhiteSpaceChar c = false) ∧
    ((trimChars cs).getLast? = some c → isStrWhiteSpaceChar c = false) := by
  have hlast : (trimChars cs).getLast? = some c → isStrWhiteSpaceChar c = false := by
    intro h
    unfold trimChars at h
    rw [List.getLast?_reverse] at h
    have := List.head?_dropWhile_not isStrWhiteSpaceChar
      (cs.dropWhile isStrWhiteSpaceChar).reverse
    rw [h] at this
    simpa using this
  refine ⟨?_, hlast⟩
  intro h
  have hd : cs.dropWhile isStrWhiteSpaceChar =
      trimChars cs ++
        ((cs.dropWhile isStrWhiteSpaceChar).reverse.takeWhile isStrWhiteSpaceChar).reverse := by
    unfold trimChars
    rw [← List.reverse_append, List.takeWhile_append_dropWhile, List.reverse_reverse]
  have h2 : (cs.dropWhile isStrWhiteSpaceChar).head? = some c := by
    rw [hd, List.head?_append, h]
    rfl
  have := List.head?_dropWhile_not isStrWhiteSpaceChar cs
  rw [h2] at this
  simpa using this

/-! ## Claims -/

/-- C1. For a bank of at least 10 questions and any outcomes of the random
source, `pickRandomTen` returns exactly 10 entries, their recorded indices are
pairwise distinct and inside the bank, and every entry carries the fields of the
bank question at its recorded index. -/
theorem pickRandomTen_spec (qs : List Question) (rnd : Nat → Rand) (hn : 10 ≤ qs.length) :
    (pickRandomTen qs rnd).length = 10 ∧
    ((pickRandomTen qs rnd).map (fun e => e.i)).Nodup ∧
    ∀ e ∈ pickRandomTen qs rnd, e.i < qs.length ∧ ∃ q, qs[e.i]? = some q ∧ e.fields = some q := by
  have hperm := shuffled_range_perm rnd qs.length
  refine ⟨?_, ?_, ?_⟩
  · have hlen : (shuffleLoop rnd ((List.range qs.length).length - 1) 0
        (List.range qs.length)).length = qs.length := by
      rw [hperm.length_eq, List.length_range]
    simp only [pickRandomTen, List.length_map, List.length_take, hlen]
    omega
  · have hnd : (shuffleLoop rnd ((List.range qs.length).length - 1) 0
        (List.range qs.length)).Nodup := hperm.nodup_iff.2 (List.nodup_range _)
    have : (pickRandomTen qs rnd).map (fun e => e.i) =
        (shuffleLoop rnd ((List.range qs.length).length - 1) 0 (List.range qs.length)).take 10 := by
      simp [pickRandomTen, Function.comp_def]
    rw [this]
    exact hnd.sublist (List.take_sublist _ _)
  · intro e he
    simp only [pickRandomTen, List.mem_map] at he
    obtain ⟨i, hi, rfl⟩ := he
    have hmem : i ∈ List.range qs.length := hperm.mem_iff.1 (List.mem_of_mem_take hi)
    have hlt : i < qs.length := List.mem_range.1 hmem
    exact ⟨hlt, qs[i], List.getElem?_eq_getElem hlt, List.getElem?_eq_getElem hlt⟩

/-- C1, at a bank of twelve questions. -/
theorem pickRandomTen_spec_witness :
    10 ≤ sampleBank.length ∧
    (pickRandomTen sampleBank sampleRnd).length = 10 ∧
    ((pickRandomTen sampleBank sampleRnd).map (fun e => e.i)).Nodup ∧
    ∀ e ∈ pickRandomTen sampleBank sampleRnd,
      e.i < sampleBank.length ∧ ∃ q, sampleBank[e.i]? = some q ∧ e.fields = some q :=
  ⟨by decide, pickRandomTen_spec sampleBank sampleRnd (by decide)⟩

/-- C3. While `now < until`, a submit event is rejected with the lock message
whatever identifier and secret it carries and whatever the user list and digest
are; no session is written and the lock state, in memory and persisted, is
unchanged. -/
theorem locked_submit_is_rejected (sha256Hex : String → String) (users : List User)
    (pg : LoginPage) (e : Submit) (h : e.tGate < pg.lock.until_) :
    (onSubmit sha256Hex users pg e).toast = some (.locked (minutesLeft pg.lock.until_ e.tMsg)) ∧
    (onSubmit sha256Hex users pg e).lock = pg.lock ∧
    (onSubmit sha256Hex users pg e).store = pg.store ∧
    (onSubmit sha256Hex users pg e).redirect = pg.redirect ∧
    (∀ (sha256Hex2 : String → String) (users2 : List User) (u p : String),
      onSubmit sha256Hex2 users2 pg { e with username := u, password := p } =
        onSubmit sha256Hex users pg e) := by
  refine ⟨?_, ?_, ?_, ?_, ?_⟩
  · rw [onSubmit_of_gate _ _ _ _ h]
  · rw [onSubmit_of_gate _ _ _ _ h]
  · rw [onSubmit_of_gate _ _ _ _ h]
  · rw [onSubmit_of_gate _ _ _ _ h]
  · intro s2 u2 u p
    rw [onSubmit_of_gate _ _ _ _ h, onSubmit_of_gate _ _ _ _ (by simpa using h)]

/-- C3, at a submit event with the right credentials made inside the lock window
that five failures opened. -/
theorem locked_submit_is_rejected_witness :
    (sampleGood 50).tGate < lockedPage.lock.until_ ∧
    (onSubmit sampleDigest sampleUsers lockedPage (sampleGood 50)).toast =
      some (.locked (minutesLeft lockedPage.lock.until_ (sampleGood 50).tMsg)) ∧
    (onSubmit sampleDigest sampleUsers lockedPage (sampleGood 50)).lock = lockedPage.lock ∧
    (onSubmit sampleDigest sampleUsers lockedPage (sampleGood 50)).store = lockedPage.store :=
  have h := locked_submit_is_rejected sampleDigest sampleUsers lockedPage (sampleGood 50)
    (by decide)
  ⟨by decide, h.1, h.2.1, h.2.2.1⟩

/-- C2. From the lock state `{0, 0}`, failed submit events leave `until` at 0
while fewer than five have been made; the fifth, whose lock reading is `t`, sets
`until = t + 600000`; from that state a submit event is stopped by the gate
exactly when its gate reading is below `t + 600000`, and the stopped ones leave
the lock as it is. -/
theorem lock_after_five_failures (sha256Hex : String → String) (users : List User)
    (pg : LoginPage) (es : List Submit) (e5 : Submit)
    (h0 : pg.lock = { attempts := 0, until_ := 0 })
    (hfail : ∀ e ∈ es ++ [e5], e.valid = true ∧
      checkCredentials sha256Hex users e.username e.password = false)
    (hlen : es.length = 4) :
    (∀ k < 5, (runSubmits sha256Hex users pg (es.take k)).lock =
      { attempts := k, until_ := 0 }) ∧
    (runSubmits sha256Hex users pg (es ++ [e5])).lock =
      { attempts := 5, until_ := e5.tLock + 600000 } ∧
    (∀ now, gateRejects (runSubmits sha256Hex users pg (es ++ [e5])).lock now = true ↔
      now < e5.tLock + 600000) ∧
    (∀ rs : List Submit, (∀ r ∈ rs, r.tGate < e5.tLock + 600000) →
      (runSubmits sha256Hex users pg (es ++ [e5] ++ rs)).lock =
        { attempts := 5, until_ := e5.tLock + 600000 }) ∧
    (∀ e : Submit, e5.tLock + 600000 ≤ e.tGate → ∀ m,
      (onSubmit sha256Hex users (runSubmits sha256Hex users pg (es ++ [e5])) e).toast ≠
        some (.locked m)) := by
  have hes : ∀ e ∈ es, e.valid = true ∧
      checkCredentials sha256Hex users e.username e.password = false :=
    fun e he => hfail e (List.mem_append_left _ he)
  have he5 := hfail e5 (List.mem_append_right _ (List.mem_singleton_self _))
  have hpre : ∀ k < 5, (runSubmits sha256Hex users pg (es.take k)).lock =
      { attempts := k, until_ := 0 } := by
    intro k hk
    have := runSubmits_failures sha256Hex users (es.take k) pg (by rw [h0])
      (fun e he => hes e (List.mem_of_mem_take he))
      (by rw [h0]; simp only [List.length_take, MAX_ATTEMPTS]; omega)
    rw [this, h0]
    simp only [List.length_take, LockState.mk.injEq, and_true]
    omega
  have h4 := hpre 4 (by omega)
  rw [List.take_of_length_le (by omega)] at h4
  have h5 : (runSubmits sha256Hex users pg (es ++ [e5])).lock =
      { attempts := 5, until_ := e5.tLock + 600000 } := by
    rw [runSubmits_append]
    have := (onSubmit_of_failure sha256Hex users (runSubmits sha256Hex users pg es) e5
      (by rw [h4]; exact Nat.zero_le _) he5.1 he5.2).1
    rw [h4] at this
    simpa [runSubmits, MAX_ATTEMPTS] using this
  have h5toast : (runSubmits sha256Hex users pg (es ++ [e5])).toast = some .tooMany := by
    rw [runSubmits_append]
    show (onSubmit sha256Hex users (runSubmits sha256Hex users pg es) e5).toast = _
    simp [onSubmit, gateRejects, he5.1, he5.2, h4, MAX_ATTEMPTS]
  refine ⟨hpre, h5, ?_, ?_, ?_⟩
  · intro now
    simp [gateRejects, h5]
  · intro rs
    induction rs using List.reverseRecOn with
    | nil => intro _; simpa using h5
    | append_singleton rs r ih =>
      intro hr
      have ih := ih (fun x hx => hr x (List.mem_append_left _ hx))
      have hlt := hr r (List.mem_append_right _ (List.mem_singleton_self _))
      rw [← List.append_assoc, runSubmits_append]
      have : runSubmits sha256Hex users (runSubmits sha256Hex users pg (es ++ [e5] ++ rs)) [r] =
          onSubmit sha256Hex users (runSubmits sha256Hex users pg (es ++ [e5] ++ rs)) r := rfl
      rw [this, onSubmit_lock_of_not_failure _ _ _ _ (Or.inl (by rw [ih]; exact hlt)), ih]
  · intro e hge m
    have hg : gateRejects (runSubmits sha256Hex users pg (es ++ [e5])).lock e.tGate = false := by
      simp [gateRejects, h5, hge]
    unfold onSubmit
    rw [hg]
    by_cases hv : e.valid = true
    · by_cases hc : checkCredentials sha256Hex users e.username e.password = true
      · simp [hv, hc]
      · simp only [Bool.not_eq_true] at hc
        simp only [Bool.false_eq_true, ↓reduceIte, hv, Bool.not_true, hc]
        split_ifs <;> simp
    · simp [hv, h5toast]

/-- C2, at five failed submit events made at times 0, 10, 20, 30 and 40. -/
theorem lock_after_five_failures_witness :
    (pageLoad emptyStore 0).lock = { attempts := 0, until_ := 0 } ∧
    (∀ e ∈ [sampleFail 0, sampleFail 10, sampleFail 20, sampleFail 30] ++ [sampleFail 40],
      e.valid = true ∧
        checkCredentials sampleDigest sampleUsers e.username e.password = false) ∧
    (runSubmits sampleDigest sampleUsers (pageLoad emptyStore 0)
      ([sampleFail 0, sampleFail 10, sampleFail 20, sampleFail 30] ++ [sampleFail 40])).lock =
      { attempts := 5, until_ := (sampleFail 40).tLock + 600000 } :=
  ⟨by decide, by decide,
    (lock_after_five_failures sampleDigest sampleUsers (pageLoad emptyStore 0)
      [sampleFail 0, sampleFail 10, sampleFail 20, sampleFail 30] (sampleFail 40)
      (by decide) (by decide) (by decide)).2.1⟩

/-- C4, counterexample. After three failures a successful submit
event shows the welcome message and leaves the in-memory lock at three attempts,
and a failure on the same page right after it persists four attempts. -/
theorem success_keeps_memory_lock :
    (onSubmit sampleDigest sampleUsers
      (runSubmits sampleDigest sampleUsers (pageLoad emptyStore 0)
        [sampleFail 0, sampleFail 10, sampleFail 20]) (sampleGood 30)).toast = some .welcome ∧
    (onSubmit sampleDigest sampleUsers
      (runSubmits sampleDigest sampleUsers (pageLoad emptyStore 0)
        [sampleFail 0, sampleFail 10, sampleFail 20]) (sampleGood 30)).lock =
      { attempts := 3, until_ := 0 } ∧
    (onSubmit sampleDigest sampleUsers
      (runSubmits sampleDigest sampleUsers (pageLoad emptyStore 0)
        [sampleFail 0, sampleFail 10, sampleFail 20]) (sampleGood 30)).lock ≠
      { attempts := 0, until_ := 0 } ∧
    (runSubmits sampleDigest sampleUsers (pageLoad emptyStore 0)
      [sampleFail 0, sampleFail 10, sampleFail 20, sampleGood 30, sampleFail 31]).store.lock =
      some { attempts := 4, until_ := 0 } := by
  decide

/-- C4, amended. A successful credential check, whatever the prior lock state,
removes the persisted lock entry, so that the lock state loaded from the store
afterwards is `{0, 0}`; the in-memory lock object is left as it was; the session
is written and the welcome message shown. -/
theorem success_clears_persisted_lock (sha256Hex : String → String) (users : List User)
    (pg : LoginPage) (e : Submit) (hgate : pg.lock.until_ ≤ e.tGate) (hvalid : e.valid = true)
    (hok : checkCredentials sha256Hex users e.username e.password = true) :
    (onSubmit sha256Hex users pg e).store.lock = none ∧
    loadLock (onSubmit sha256Hex users pg e).store = { attempts := 0, until_ := 0 } ∧
    (∀ now, (pageLoad (onSubmit sha256Hex users pg e).store now).lock =
      { attempts := 0, until_ := 0 }) ∧
    (onSubmit sha256Hex users pg e).lock = pg.lock ∧
    (onSubmit sha256Hex users pg e).toast = some .welcome ∧
    (∃ s, (onSubmit sha256Hex users pg e).store.session = some s ∧
      s.username = jsTrim e.username) := by
  have hg : gateRejects pg.lock e.tGate = false := by
    simp [gateRejects, hgate]
  have hstore : (onSubmit sha256Hex users pg e).store.lock = none := by
    unfold onSubmit
    simp only [hg, hvalid, hok, Bool.false_eq_true, ↓reduceIte, Bool.not_true]
  refine ⟨hstore, ?_, ?_, ?_, ?_, ?_⟩
  · simp [loadLock, hstore]
  · intro now
    simp [pageLoad, loadLock, hstore]
  · exact onSubmit_lock_of_not_failure _ _ _ _ (Or.inr (Or.inr hok))
  · unfold onSubmit
    simp only [hg, hvalid, hok, Bool.false_eq_true, ↓reduceIte, Bool.not_true]
  · unfold onSubmit
    simp only [hg, hvalid, hok, Bool.false_eq_true, ↓reduceIte, Bool.not_true]
    by_cases hr : e.rememberMe = true <;> simp [hr, setSession]

/-- C4 amended, at a successful submit event after three failures. -/
theorem success_clears_persisted_lock_witness :
    (runSubmits sampleDigest sampleUsers (pageLoad emptyStore 0)
      [sampleFail 0, sampleFail 10, sampleFail 20]).lock.until_ ≤ (sampleGood 30).tGate ∧
    (sampleGood 30).valid = true ∧
    checkCredentials sampleDigest sampleUsers (sampleGood 30).username
      (sampleGood 30).password = true ∧
    loadLock (onSubmit sampleDigest sampleUsers
      (runSubmits sampleDigest sampleUsers (pageLoad emptyStore 0)
        [sampleFail 0, sampleFail 10, sampleFail 20]) (sampleGood 30)).store =
      { attempts := 0, until_ := 0 } :=
  ⟨by decide, by decide, by decide,
    (success_clears_persisted_lock sampleDigest sampleUsers
      (runSubmits sampleDigest sampleUsers (pageLoad emptyStore 0)
        [sampleFail 0, sampleFail 10, sampleFail 20]) (sampleGood 30)
      (by decide) (by decide) (by decide)).2.1⟩

/-- C8, counterexample. An identifier submitted with surrounding
blanks passes the check although no record has that identifier. -/
theorem check_trims_identifier :
    checkCredentials sampleDigest sampleUsers " veinarous " "open" = true ∧
    ¬ ∃ r ∈ sampleUsers, r.username = " veinarous " ∧ r.pass_sha256 = sampleDigest "open" := by
  decide

/-- C8, amended. The credential check succeeds exactly when some record has an
identifier equal, character for character, to the submitted identifier with its
leading and trailing white space removed, and a digest equal to the digest of the
submitted secret; nothing else is normalised. The trimmed identifier is the
submitted one without a white-space prefix and a white-space suffix, and it neither
starts nor ends with a white-space character. -/
theorem checkCredentials_iff (sha256Hex : String → String) (users : List User)
    (username password : String) :
    (checkCredentials sha256Hex users username password = true ↔
      ∃ r ∈ users, r.username = jsTrim username ∧ r.pass_sha256 = sha256Hex password) ∧
    (∃ pre post : List Char, username.data = pre ++ (jsTrim username).data ++ post ∧
      (∀ c ∈ pre, isStrWhiteSpaceChar c = true) ∧ (∀ c ∈ post, isStrWhiteSpaceChar c = true)) ∧
    (∀ c, ((jsTrim username).data.head? = some c → isStrWhiteSpaceChar c = false) ∧
      ((jsTrim username).data.getLast? = some c → isStrWhiteSpaceChar c = false)) := by
  refine ⟨?_, ?_, ?_⟩
  · simp [checkCredentials, credentialsMatch, List.any_eq_true]
  · exact trimChars_decomp username.data
  · intro c
    exact trimChars_ends username.data c

/-- C9, counterexample. Five failures lock the page, and a sixth
failure made after the window has expired raises `attempts` to 6. -/
theorem attempts_exceed_max_after_expiry :
    (runSubmits sampleDigest sampleUsers (pageLoad emptyStore 0)
      [sampleFail 0, sampleFail 10, sampleFail 20, sampleFail 30, sampleFail 40,
        sampleFail 700000]).lock = { attempts := 6, until_ := 1300001 } ∧
    ¬ (runSubmits sampleDigest sampleUsers (pageLoad emptyStore 0)
      [sampleFail 0, sampleFail 10, sampleFail 20, sampleFail 30, sampleFail 40,
        sampleFail 700000]).lock.attempts ≤ MAX_ATTEMPTS := by
  decide

/-- C9, amended. From the lock state `{0, 0}`, along any sequence of submit
events in which every event made once `attempts` has reached 5 is stopped by the
gate (no failure is made after a lock window has expired), `attempts` never
exceeds 5, `until` is 0 while `attempts` is below 5, and a set lock goes with
`attempts = 5`. -/
theorem attempts_le_max_within_lock (sha256Hex : String → String) (users : List User)
    (pg : LoginPage) (es : List Submit) (h0 : pg.lock = { attempts := 0, until_ := 0 })
    (hw : staysWithinLock sha256Hex users pg es = true) :
    (runSubmits sha256Hex users pg es).lock.attempts ≤ MAX_ATTEMPTS ∧
    ((runSubmits sha256Hex users pg es).lock.attempts < MAX_ATTEMPTS →
      (runSubmits sha256Hex users pg es).lock.until_ = 0) ∧
    ((runSubmits sha256Hex users pg es).lock.until_ ≠ 0 →
      (runSubmits sha256Hex users pg es).lock.attempts = MAX_ATTEMPTS) := by
  have h := staysWithinLock_inv sha256Hex users es pg (by rw [h0]; decide)
    (fun _ => by rw [h0]) hw
  refine ⟨h.1, h.2, fun hne => ?_⟩
  by_contra hlt
  exact hne (h.2 (lt_of_le_of_ne h.1 hlt))

/-- C9 amended, at five failures followed by two submit events inside the lock
window. -/
theorem attempts_le_max_within_lock_witness :
    (pageLoad emptyStore 0).lock = { attempts := 0, until_ := 0 } ∧
    staysWithinLock sampleDigest sampleUsers (pageLoad emptyStore 0)
      [sampleFail 0, sampleFail 10, sampleFail 20, sampleFail 30, sampleFail 40,
        sampleFail 50, sampleGood 600000] = true ∧
    (runSubmits sampleDigest sampleUsers (pageLoad emptyStore 0)
      [sampleFail 0, sampleFail 10, sampleFail 20, sampleFail 30, sampleFail 40,
        sampleFail 50, sampleGood 600000]).lock.attempts ≤ MAX_ATTEMPTS :=
  ⟨by decide, by decide,
    (attempts_le_max_within_lock sampleDigest sampleUsers (pageLoad emptyStore 0)
      [sampleFail 0, sampleFail 10, sampleFail 20, sampleFail 30, sampleFail 40,
        sampleFail 50, sampleGood 600000] (by decide) (by decide)).1⟩

/-- C10. Whatever a lesson's three keys held before, `reset` removes all three,
the display computed right after is last 0, best 0, read false and bar 0, every
key other than these three keeps its value, and so do the three keys of every
other lesson. -/
theorem reset_then_display (ls : Storage) (id : WeekId) :
    refreshProgressUI (resetClick ls (keysOf id)) (keysOf id) =
      { last := .fin 0, best := .fin 0, read := false, bar := .fin 0 } ∧
    resetClick ls (keysOf id) (LS (keysOf id).read) = none ∧
    resetClick ls (keysOf id) (LS (keysOf id).last) = none ∧
    resetClick ls (keysOf id) (LS (keysOf id).best) = none ∧
    (∀ k, k ≠ LS (keysOf id).read → k ≠ LS (keysOf id).last → k ≠ LS (keysOf id).best →
      resetClick ls (keysOf id) k = ls k) ∧
    (∀ id2, id2 ≠ id →
      resetClick ls (keysOf id) (LS (keysOf id2).read) = ls (LS (keysOf id2).read) ∧
      resetClick ls (keysOf id) (LS (keysOf id2).last) = ls (LS (keysOf id2).last) ∧
      resetClick ls (keysOf id) (LS (keysOf id2).best) = ls (LS (keysOf id2).best)) := by
  have hr : resetClick ls (keysOf id) (LS (keysOf id).read) = none := by
    simp [resetClick_apply]
  have hl : resetClick ls (keysOf id) (LS (keysOf id).last) = none := by
    simp [resetClick_apply]
  have hb : resetClick ls (keysOf id) (LS (keysOf id).best) = none := by
    simp [resetClick_apply]
  have hother : ∀ k, k ≠ LS (keysOf id).read → k ≠ LS (keysOf id).last →
      k ≠ LS (keysOf id).best → resetClick ls (keysOf id) k = ls k := by
    intro k h1 h2 h3
    simp [resetClick_apply, h1, h2, h3]
  refine ⟨?_, hr, hl, hb, hother, ?_⟩
  · simp [refreshProgressUI, lsGet, hr, hl, hb, clamp01_zero, mathMax]
  · intro id2 hne
    have h1 := keysOf_disjoint id id2 (Ne.symm hne) _ (Or.inl rfl)
    have h2 := keysOf_disjoint id id2 (Ne.symm hne) _ (Or.inr (Or.inl rfl))
    have h3 := keysOf_disjoint id id2 (Ne.symm hne) _ (Or.inr (Or.inr rfl))
    exact ⟨hother _ h1.1 h1.2.1 h1.2.2, hother _ h2.1 h2.2.1 h2.2.2,
      hother _ h3.1 h3.2.1 h3.2.2⟩

/-- C7, at a corrupted best score: the stored text `abc` is read as `NaN`, and
the bar percentage derived from it is `NaN` as well, not a number in `[0, 100]`;
a later score of 100 does not replace the corrupted entry. -/
theorem corrupted_score_reads_nan :
    clamp01 (.str "abc") = .nan ∧
    (refreshProgressUI (fun k => if k = "circle8_m2_w1_best" then some "abc" else none)
      (keysOf { M := 2, W := 1 })).best = .nan ∧
    (refreshProgressUI (fun k => if k = "circle8_m2_w1_best" then some "abc" else none)
      (keysOf { M := 2, W := 1 })).bar = .nan ∧
    (refreshProgressUI (fun k => if k = "circle8_m2_w1_best" then some "abc" else none)
      (keysOf { M := 2, W := 1 })).last = .fin 0 ∧
    recordScore (keysOf { M := 2, W := 1 })
      (fun k => if k = "circle8_m2_w1_best" then some "abc" else none) 100
      "circle8_m2_w1_best" = some "abc" := by
  decide

/-- C6. For a set of 10 entries whose correct indices lie inside their choice
lists and any selections, `gradeCurrent` returns ten times the number of
questions whose selected index equals the correct index, unanswered questions
not counting; the result is a multiple of 10 between 0 and 100, it is 0 when
nothing is answered, 100 when every question is answered correctly and 70 when
exactly seven are. -/
theorem gradeCurrent_spec (checked : Nat → Option Nat) (set : List Entry)
    (hlen : set.length = 10)
    (hidx : ∀ e ∈ set, ∃ f, e.fields = some f ∧ 0 ≤ f.a ∧ f.a < f.c.length) :
    gradeCurrent (some checked) set = 10 * (correctCount checked set : Int) ∧
    0 ≤ gradeCurrent (some checked) set ∧
    gradeCurrent (some checked) set ≤ 100 ∧
    (10 : Int) ∣ gradeCurrent (some checked) set ∧
    ((∀ n, n < 10 → checked n = none) → gradeCurrent (some checked) set = 0) ∧
    ((∀ n e, set[n]? = some e → ∃ f v, e.fields = some f ∧ checked n = some v ∧ (v : Int) = f.a) →
      gradeCurrent (some checked) set = 100) ∧
    (correctCount checked set = 7 → gradeCurrent (some checked) set = 70) := by
  have heq := gradeCurrent_eq checked set hidx
  have hle := correctCount_le checked set
  rw [hlen] at hle
  refine ⟨heq, by rw [heq]; omega, by rw [heq]; omega, ⟨_, heq⟩, ?_, ?_, ?_⟩
  · intro hnone
    have : correctCount checked set = 0 := by
      unfold correctCount
      rw [List.length_eq_zero, List.filter_eq_nil_iff]
      intro x hx
      have hlt := List.fst_lt_of_mem_enum hx
      rw [hlen] at hlt
      simp [hnone x.1 hlt]
    rw [heq, this]
    rfl
  · intro hall
    have : correctCount checked set = 10 := by
      unfold correctCount
      rw [List.filter_eq_self.2, List.enum_length, hlen]
      intro x hx
      obtain ⟨f, v, hf, hv, hvf⟩ := hall x.1 x.2 (List.mem_enum_iff_getElem?.1 hx)
      simp [hf, hv, hvf]
    rw [heq, this]
    rfl
  · intro h7
    rw [heq, h7]
    rfl

/-- C6, at a sampled set with the first seven questions answered correctly and
the last three left unanswered. -/
theorem gradeCurrent_spec_witness :
    sampleSet.length = 10 ∧
    (∀ e ∈ sampleSet, ∃ f, e.fields = some f ∧ 0 ≤ f.a ∧ f.a < f.c.length) ∧
    correctCount sampleChecked sampleSet = 7 ∧
    gradeCurrent (some sampleChecked) sampleSet = 70 :=
  have hlen : sampleSet.length = 10 := by decide
  have hidx : ∀ e ∈ sampleSet, ∃ f, e.fields = some f ∧ 0 ≤ f.a ∧ f.a < f.c.length := by
    decide
  ⟨hlen, hidx, by decide,
    (gradeCurrent_spec sampleChecked sampleSet hlen hidx).2.2.2.2.2.2 (by decide)⟩

/-- C5. For a lesson whose best score is not stored (just reset, or never
written) and quiz submissions with scores `ps` followed by `p`, all in
`[0, 100]`: the best score read afterwards is the maximum of all the scores and
the last score read is `p`; the best score before the last submission was the
maximum of `ps`, so it never decreases, and it is at least every score. -/
theorem recordScore_best_is_max (id : WeekId) (ls : Storage) (ps : List Nat) (p : Nat)
    (hreset : ls (LS (keysOf id).best) = none)
    (hrange : ∀ x ∈ ps ++ [p], x ≤ 100) :
    (refreshProgressUI (recordScores (keysOf id) ls (ps ++ [p])) (keysOf id)).best =
      .fin (((ps ++ [p]).foldl max 0 : Nat) : ℚ) ∧
    (refreshProgressUI (recordScores (keysOf id) ls (ps ++ [p])) (keysOf id)).last =
      .fin (p : ℚ) ∧
    recordScores (keysOf id) ls (ps ++ [p]) (LS (keysOf id).last) = some (toString p) ∧
    recordScores (keysOf id) ls (ps ++ [p]) (LS (keysOf id).best) =
      (if (ps ++ [p]).foldl max 0 = 0 then none
       else some (toString ((ps ++ [p]).foldl max 0))) ∧
    (refreshProgressUI (recordScores (keysOf id) ls ps) (keysOf id)).best =
      .fin ((ps.foldl max 0 : Nat) : ℚ) ∧
    ps.foldl max 0 ≤ (ps ++ [p]).foldl max 0 ∧
    (∀ x ∈ ps ++ [p], x ≤ (ps ++ [p]).foldl max 0) := by
  have h0 : clamp01 (lsGet ls (keysOf id).best (.num (.fin 0))) = .fin ((0 : Nat) : ℚ) := by
    simp only [lsGet, hreset, Nat.cast_zero]
    exact clamp01_zero
  have hraw0 : ls (LS (keysOf id).best) = (if (0 : Nat) = 0 then none else some (toString 0)) := by
    simp [hreset]
  have hps : ∀ x ∈ ps, x ≤ 100 := fun x hx => hrange x (List.mem_append_left _ hx)
  have hp : p ≤ 100 := hrange p (List.mem_append_right _ (List.mem_singleton_self _))
  obtain ⟨a1, a2, _⟩ := recordScores_inv id (ps ++ [p]) ls 0 hrange (Nat.zero_le _) h0 hraw0
  obtain ⟨b1, b2, b3⟩ := recordScores_inv id ps ls 0 hps (Nat.zero_le _) h0 hraw0
  have hlast : recordScores (keysOf id) ls (ps ++ [p]) (LS (keysOf id).last) =
      some (toString p) := by
    have : recordScores (keysOf id) ls (ps ++ [p]) =
        recordScore (keysOf id) (recordScores (keysOf id) ls ps) (p : Int) := by
      simp [recordScores, List.foldl_append]
    rw [this]
    exact (recordScore_step id _ p _ hp b3 b1 b2).2.2
  refine ⟨a1, ?_, hlast, a2, b1, ?_, (foldl_max_ge (ps ++ [p]) 0).2⟩
  · simp only [refreshProgressUI, lsGet, hlast]
    exact clamp01_toString p hp
  · rw [List.foldl_append]
    exact le_max_left _ _

/-- C5, at the scores 30, 70, 50 recorded after a reset. -/
theorem recordScore_best_is_max_witness :
    resetClick (fun _ => some "junk") (keysOf { M := 2, W := 1 })
      (LS (keysOf { M := 2, W := 1 }).best) = none ∧
    (∀ x ∈ [30, 70] ++ [50], x ≤ 100) ∧
    (refreshProgressUI (recordScores (keysOf { M := 2, W := 1 })
      (resetClick (fun _ => some "junk") (keysOf { M := 2, W := 1 })) ([30, 70] ++ [50]))
      (keysOf { M := 2, W := 1 })).best = .fin ((([30, 70] ++ [50]).foldl max 0 : Nat) : ℚ) ∧
    (refreshProgressUI (recordScores (keysOf { M := 2, W := 1 })
      (resetClick (fun _ => some "junk") (keysOf { M := 2, W := 1 })) ([30, 70] ++ [50]))
      (keysOf { M := 2, W := 1 })).last = .fin ((50 : Nat) : ℚ) :=
  have h := recordScore_best_is_max { M := 2, W := 1 }
    (resetClick (fun _ => some "junk") (keysOf { M := 2, W := 1 })) [30, 70] 50
    (by decide) (by decide)
  ⟨by decide, by decide, h.1, h.2.1⟩

end Circle8
